import Mathlib

/-!
Verification of the pschema-rs core: shape algebra (src/shape/shex.rs,
src/shape/shape.rs), shape-tree scheduler (src/shape/shape_tree.rs) and the
BSP validation driver (src/pschema.rs).  Machine integers (u8 labels, u32
ids) are modelled as Nat: no arithmetic in the translated code can overflow
on the inputs considered, and no claim depends on wrap-around.
-/

namespace PschemaRs

/-- Bound, from src/shape/shex.rs: either Inclusive(n) or Exclusive(n). -/
inductive Bound where
  | inclusive (n : Nat)
  | exclusive (n : Nat)
  deriving Repr, DecidableEq

/-- The Shape enum, from src/shape/shex.rs together with the ShapeLiteral
variant of src/shape/shape.rs (the shape_tree.rs scheduler matches on all
five variants).  TripleConstraint carries (label, predicate, object);
ShapeReference (label, predicate, inner shape); ShapeComposite (label,
children); ShapeLiteral (label, predicate, dtype); Cardinality (inner
shape, min, max). -/
inductive Shape where
  | tripleConstraint (label : Nat) (predicate : Nat) (object : Nat)
  | shapeReference (label : Nat) (predicate : Nat) (reference : Shape)
  | shapeComposite (label : Nat) (shapes : List Shape)
  | shapeLiteral (label : Nat) (predicate : Nat) (dtype : Nat)
  | cardinality (shape : Shape) (min : Bound) (max : Bound)

/-- Shape::get_label (src/shape/shex.rs lines 50-57): every variant returns
its own label field, except Cardinality which recursively returns the label
of its inner shape. -/
def Shape.getLabel : Shape → Nat
  | .tripleConstraint label _ _ => label
  | .shapeReference label _ _ => label
  | .shapeComposite label _ => label
  | .shapeLiteral label _ _ => label
  | .cardinality shape _ _ => shape.getLabel

/-- The children enqueued by ShapeTree::new for each dequeued node
(src/shape/shape_tree.rs lines 47-68): TripleConstraint and ShapeLiteral
enqueue nothing, ShapeReference its inner shape, ShapeComposite all its
children, Cardinality its inner shape. -/
def Shape.children : Shape → List Shape
  | .tripleConstraint _ _ _ => []
  | .shapeReference _ _ reference => [reference]
  | .shapeComposite _ shapes => shapes
  | .shapeLiteral _ _ _ => []
  | .cardinality shape _ _ => [shape]

mutual

/-- Height of a shape tree: 1 for a leaf, 1 + max height of the children
otherwise.  Used to state the spec's "iterations is exactly the height". -/
def Shape.height : Shape → Nat
  | .tripleConstraint _ _ _ => 1
  | .shapeReference _ _ reference => 1 + reference.height
  | .shapeComposite _ shapes => 1 + Shape.heightList shapes
  | .shapeLiteral _ _ _ => 1
  | .cardinality shape _ _ => 1 + shape.height

/-- Maximum height over a list of shapes (0 for the empty list). -/
def Shape.heightList : List Shape → Nat
  | [] => 0
  | s :: rest => max s.height (Shape.heightList rest)

end

mutual

/-- Number of nodes of a shape tree; a termination measure. -/
def Shape.sz : Shape → Nat
  | .tripleConstraint _ _ _ => 1
  | .shapeReference _ _ reference => 1 + reference.sz
  | .shapeComposite _ shapes => 1 + Shape.szList shapes
  | .shapeLiteral _ _ _ => 1
  | .cardinality shape _ _ => 1 + shape.sz

/-- Total number of nodes over a list of shape trees. -/
def Shape.szList : List Shape → Nat
  | [] => 0
  | s :: rest => s.sz + Shape.szList rest

end

/-- The BFS rounds of ShapeTree::new (src/shape/shape_tree.rs lines
45-72), driven by an explicit fuel so the recursion is structural: in each
round the current queue becomes a level and the next queue is every
dequeued node's children in order.  The loop of the source runs until the
queue is empty; a fuel of szList(queue) provably suffices (the total node
count strictly decreases each round), so levelsFrom below never hits the
zero-fuel cutoff — see the unfolding theorems levelsFrom_nil and
levelsFrom_cons. -/
def levelsFromGo : Nat → List Shape → List (List Shape)
  | _, [] => []
  | 0, _ :: _ => []
  | fuel + 1, s :: rest =>
      (s :: rest) :: levelsFromGo fuel ((s :: rest).flatMap Shape.children)

/-- Level-order rounds of ShapeTree::new starting from a seed queue. -/
def levelsFrom (q : List Shape) : List (List Shape) := levelsFromGo (Shape.szList q) q

/-- ShapeTree::new (src/shape/shape_tree.rs lines 37-77): the reverse
level-order partition of the shape tree, seeded with the root, reversed at
the end so leaves sit at index 0. -/
def shapeTreeLevels (s : Shape) : List (List Shape) := (levelsFrom [s]).reverse

/-- Whether a single shape node is n-ary in the sense of
ShapeTree::contains_nary: ShapeComposite and Cardinality are, the three
leaf-style variants are not. -/
def Shape.isNary : Shape → Bool
  | .shapeComposite _ _ => true
  | .cardinality _ _ _ => true
  | _ => false

/-- ShapeTree::contains_nary (src/shape/shape_tree.rs lines 105-119): true
iff some level of the tree contains a ShapeComposite or a Cardinality. -/
def containsNary (levels : List (List Shape)) : Bool :=
  levels.any (fun lvl => lvl.any Shape.isNary)

/-- ShapeTree::iterations (src/shape/shape_tree.rs lines 90-96): the number
of levels minus one when the tree contains an n-ary shape, the number of
levels otherwise. -/
def iterations (levels : List (List Shape)) : Nat :=
  if containsNary levels then levels.length - 1 else levels.length

/-- Whether a shape node is the Cardinality variant. -/
def Shape.isCardinality : Shape → Bool
  | .cardinality _ _ _ => true
  | _ => false

mutual

/-- All constituent shape nodes of a schema: the node itself followed by
the constituents of its children. -/
def Shape.subshapes : Shape → List Shape
  | .tripleConstraint l p o => [.tripleConstraint l p o]
  | .shapeReference l p r => .shapeReference l p r :: r.subshapes
  | .shapeComposite l ss => .shapeComposite l ss :: Shape.subshapesList ss
  | .shapeLiteral l p d => [.shapeLiteral l p d]
  | .cardinality sh mn mx => .cardinality sh mn mx :: sh.subshapes

/-- Constituents of a list of shapes, concatenated in order. -/
def Shape.subshapesList : List Shape → List Shape
  | [] => []
  | s :: rest => s.subshapes ++ Shape.subshapesList rest

end

/-- An edge row of the input table: subject (the source vertex, column
"src"), predicate (column "property_id"), object (the destination vertex,
column "dst") and the datatype tag (column "dtype"). -/
structure Edge where
  subject : Nat
  predicate : Nat
  object : Nat
  dtype : Nat
  deriving Repr, DecidableEq

/-- The per-vertex labels column: NULL or a list of label ids. -/
abbrev LabelMap := Nat → Option (List Nat)

/-- One node's contribution to the send-phase fold of
PSchema::send_messages (src/pschema.rs lines 154-167), threading the
accumulated expression through as prev:
TripleConstraint::validate (src/shape/shex.rs lines 205-213):
when(object == self.object AND predicate == self.predicate) then
lit(label) otherwise prev;
ShapeReference::validate (src/shape/shex.rs lines 289-299):
when(object's labels contains inner label AND predicate ==
self.predicate) then lit(label) otherwise prev — a NULL labels list makes
the condition non-true, selecting prev;
ShapeLiteral::validate (src/shape/shape.rs lines 183-194):
when(dtype == self.dtype AND dst == src AND predicate) then label
otherwise prev; composite and cardinality nodes contribute nothing in the
send phase. -/
def sendStep (labels : LabelMap) (e : Edge) (ans : Option Nat) (node : Shape) : Option Nat :=
  match node with
  | .tripleConstraint l p o =>
      if e.object = o ∧ e.predicate = p then some l else ans
  | .shapeReference l p r =>
      match labels e.object with
      | some ls => if r.getLabel ∈ ls ∧ e.predicate = p then some l else ans
      | none => ans
  | .shapeLiteral l p d =>
      if e.dtype = d ∧ e.object = e.subject ∧ e.predicate = p then some l else ans
  | .shapeComposite _ _ => ans
  | .cardinality _ _ _ => ans

/-- PSchema::send_messages (src/pschema.rs lines 154-167): fold the level's
nodes over prev, starting from lit(NULL). -/
def sendFold (nodes : List Shape) (labels : LabelMap) (e : Edge) : Option Nat :=
  nodes.foldl (sendStep labels e) none

/-- Whether a leaf-style node's when-condition holds on an edge row
(composite and cardinality nodes never match in the send phase). -/
def leafMatches (labels : LabelMap) (e : Edge) (node : Shape) : Bool :=
  match node with
  | .tripleConstraint _ p o => decide (e.object = o ∧ e.predicate = p)
  | .shapeReference _ p r =>
      match labels e.object with
      | some ls => decide (r.getLabel ∈ ls ∧ e.predicate = p)
      | none => false
  | .shapeLiteral _ p d => decide (e.dtype = d ∧ e.object = e.subject ∧ e.predicate = p)
  | .shapeComposite _ _ => false
  | .cardinality _ _ _ => false

/-- concat_list([lit(label), prev]): prepend the label to the threaded
list; a NULL list operand propagates NULL. -/
def concatLabel (l : Nat) (prev : Option (List Nat)) : Option (List Nat) :=
  prev.map (l :: ·)

/-- The when-condition of ShapeComposite::validate (src/shape/shex.rs lines
372-382): the fold acc.and(lit(child label).is_in(msg)) starting from
lit(true) — true iff every child's label occurs among the received
messages; a NULL message column fails the conjunction unless there are no
children at all. -/
def compCond (shapes : List Shape) (msgs : Option (List Nat)) : Bool :=
  match msgs with
  | some ms => shapes.all (fun c => decide (c.getLabel ∈ ms))
  | none => shapes.isEmpty

/-- The count computed by Cardinality::validate (src/shape/shex.rs lines
439-443): msg.list().eval(col("").eq(lit(label)).cumsum(false)).list()
.first() — the FIRST partial sum of the indicator series, i.e. 1 when the
first received message equals the label and 0 otherwise; NULL on an empty
or NULL message list. -/
def cardCount (msgs : Option (List Nat)) (label : Nat) : Option Nat :=
  match msgs with
  | some (x :: _) => some (if x = label then 1 else 0)
  | _ => none

/-- Lower-bound test of Cardinality::validate: count >= n for Inclusive(n),
count > n for Exclusive(n). -/
def boundMinOk (b : Bound) (c : Nat) : Bool :=
  match b with
  | .inclusive n => decide (n ≤ c)
  | .exclusive n => decide (n < c)

/-- Upper-bound test of Cardinality::validate: count <= n for Inclusive(n),
count < n for Exclusive(n). -/
def boundMaxOk (b : Bound) (c : Nat) : Bool :=
  match b with
  | .inclusive n => decide (c ≤ n)
  | .exclusive n => decide (c < n)

/-- The when-condition of Cardinality::validate (src/shape/shex.rs lines
445-453): both bound tests on the computed count; a NULL count makes the
condition non-true. -/
def cardCond (inner : Shape) (mn mx : Bound) (msgs : Option (List Nat)) : Bool :=
  match cardCount msgs inner.getLabel with
  | some c => boundMinOk mn c && boundMaxOk mx c
  | none => false

/-- One node's contribution to the vertex-update fold of PSchema::v_prog
(src/pschema.rs lines 194-207): leaf-style nodes leave the accumulator
unchanged; ShapeComposite::validate (src/shape/shex.rs lines 372-382)
prepends its own label when its condition holds; Cardinality::validate
(src/shape/shex.rs lines 438-463) prepends the inner shape's label when
its bounds test holds (the Cardinality arm of the vertex-update dispatch
is modelled from the spec section 4.4, which places Cardinality in the
vertex-update phase: the snapshot's pschema.rs predates the Cardinality
variant). -/
def vProgStep (msgs : Option (List Nat)) (ans : Option (List Nat)) (node : Shape) :
    Option (List Nat) :=
  match node with
  | .shapeComposite l cs => if compCond cs msgs then concatLabel l ans else ans
  | .cardinality inner mn mx =>
      if cardCond inner mn mx msgs then concatLabel inner.getLabel ans else ans
  | _ => ans

/-- PSchema::v_prog (src/pschema.rs lines 194-207): the fold starts from
the aggregated message column (let mut ans = Column::msg(None)) and runs
the level's n-ary validates over it. -/
def vProgFold (nodes : List Shape) (msgs : Option (List Nat)) : Option (List Nat) :=
  nodes.foldl (vProgStep msgs) msgs

/-- The messages delivered to vertex v in one superstep: one per outgoing
edge (MessageReceiver::Src — the message goes to the edge's subject),
evaluated by the send fold; NULL messages are dropped by
PSchema::aggregate_messages (src/pschema.rs lines 178-180). -/
def deliveries (level : List Shape) (labels : LabelMap) (edges : List Edge) (v : Nat) :
    List Nat :=
  (edges.filter (fun e => e.subject == v)).filterMap (sendFold level labels)

/-- Aggregated message column for vertex v: the list of non-NULL messages,
NULL when no message arrived.  Modelled from the spec: the BSP engine
(external pregel-rs crate) groups messages per destination vertex and a
vertex with no surviving message carries a NULL message column. -/
def aggMsgs (level : List Shape) (labels : LabelMap) (edges : List Edge) (v : Nat) :
    Option (List Nat) :=
  if (deliveries level labels edges v).isEmpty then none
  else some (deliveries level labels edges v)

/-- One BSP superstep i.  Modelled from the spec (section 4.4): send with
the level drawn from the send iterator (level i), aggregate, then the
vertex-update fold with the level drawn from the v-prog iterator — which
skipped the first level (v_prog_iter.next() in src/pschema.rs line 98), so
it reads level i+1; the v-prog result replaces the labels column.  Past
the last level an exhausted iterator leaves the fold's base value, exactly
as the empty node list does. -/
def stepAt (levels : List (List Shape)) (edges : List Edge) (i : Nat)
    (labels : LabelMap) : LabelMap :=
  fun v => vProgFold (levels.getD (i + 1) []) (aggMsgs (levels.getD i []) labels edges v)

/-- Run k supersteps starting at superstep index i. -/
def runSteps (levels : List (List Shape)) (edges : List Edge) :
    Nat → Nat → LabelMap → LabelMap
  | _, 0, labels => labels
  | i, Nat.succ k, labels => runSteps levels edges (i + 1) k (stepAt levels edges i labels)

/-- The labels column after n supersteps, starting from the all-NULL
labels column of superstep 0. -/
def labelsAfter (levels : List (List Shape)) (edges : List Edge) (n : Nat) : LabelMap :=
  runSteps levels edges 0 n (fun _ => none)

/-- The input edge table as named columns. -/
abbrev EdgeDF := List (String × List Nat)

/-- Errors surfaced by PSchema::validate: PolarsError::SchemaFieldNotFound
(the spec's SchemaFieldMissing) and PolarsError::NoData (the spec's
EmptyColumn). -/
inductive PolarsErr where
  | schemaFieldNotFound (name : String)
  | noData (name : String)
  deriving Repr, DecidableEq

instance {ε α : Type} [DecidableEq ε] [DecidableEq α] : DecidableEq (Except ε α) := fun a b =>
  match a, b with
  | .error e, .error f =>
    match decEq e f with
    | isTrue h => isTrue (congrArg Except.error h)
    | isFalse h => isFalse (fun hh => h (Except.error.inj hh))
  | .error _, .ok _ => isFalse (fun hh => Except.noConfusion hh)
  | .ok _, .error _ => isFalse (fun hh => Except.noConfusion hh)
  | .ok x, .ok y =>
    match decEq x y with
    | isTrue h => isTrue (congrArg Except.ok h)
    | isFalse h => isFalse (fun hh => h (Except.ok.inj hh))

/-- Column lookup on the edge table. -/
def getCol (df : EdgeDF) (name : String) : Option (List Nat) :=
  (df.find? (fun c => c.1 == name)).map (·.2)

/-- check_field (src/utils/check.rs lines 5-14), inlined per column in
PSchema::validate (src/pschema.rs lines 72-91): a missing column gives
SchemaFieldNotFound, an empty one NoData. -/
def checkField (df : EdgeDF) (name : String) : Except PolarsErr Unit :=
  match getCol df name with
  | none => .error (.schemaFieldNotFound name)
  | some c => if c.length = 0 then .error (.noData name) else .ok ()

/-- The vertex table synthesised from the edge table: one entry per
distinct vertex id occurring as a subject or an object, subjects first. -/
def verticesOf (edges : List Edge) : List Nat :=
  (edges.map (·.subject) ++ edges.map (·.object)).dedup

/-- The result materialiser of PSchema::validate (src/pschema.rs lines
113-125): select the id and labels columns of the post-BSP vertex frame
and keep the rows whose labels entry is not NULL. -/
def materialiseCode (vs : List Nat) (final : LabelMap) : List (Nat × List Nat) :=
  vs.filterMap (fun v => (final v).map (fun ls => (v, ls)))

/-- Modelled from the spec: the section 4.5 result materialiser the claims
describe — keep vertex rows where length(labels) > 0, left-join to the
edges on vertex_id == subject, and project (subject, predicate, object,
labels), one row per edge of the validated subset.  This definition
follows the spec's words and exists only to be compared with
materialiseCode, the one translated from the source. -/
def materialiseSpecModel (vs : List Nat) (final : LabelMap) (edges : List Edge) :
    List (Nat × Nat × Nat × List Nat) :=
  (vs.filter (fun v =>
      match final v with
      | some ls => decide (0 < ls.length)
      | none => false)).flatMap
    (fun v => (edges.filter (fun e => e.subject == v)).map
      (fun e => (e.subject, e.predicate, e.object, (final v).getD [])))

/-- Zip the four columns into edge rows. -/
def zip4 : List Nat → List Nat → List Nat → List Nat → List Edge
  | s :: ss, p :: ps, o :: os, d :: ds => ⟨s, p, o, d⟩ :: zip4 ss ps os ds
  | _, _, _, _ => []

/-- The edge rows of the table. -/
def edgesOf (df : EdgeDF) : List Edge :=
  zip4 ((getCol df "src").getD []) ((getCol df "property_id").getD [])
    ((getCol df "dst").getD []) ((getCol df "dtype").getD [])

/-- PSchema::validate (src/pschema.rs lines 63-126) for a fixed level
schedule: check the four columns src, dst, property_id, dtype in that
order (lines 72-91), then run iterations(tree) supersteps and materialise
the result. -/
def validateWith (levels : List (List Shape)) (df : EdgeDF) :
    Except PolarsErr (List (Nat × List Nat)) :=
  match checkField df "src" with
  | .error e => .error e
  | .ok _ =>
    match checkField df "dst" with
    | .error e => .error e
    | .ok _ =>
      match checkField df "property_id" with
      | .error e => .error e
      | .ok _ =>
        match checkField df "dtype" with
        | .error e => .error e
        | .ok _ =>
          let edges := edgesOf df
          .ok (materialiseCode (verticesOf edges)
            (labelsAfter levels edges (iterations levels)))

/-- PSchema::validate on a schema: build the shape tree, then validate. -/
def validate (schema : Shape) (df : EdgeDF) : Except PolarsErr (List (Nat × List Nat)) :=
  validateWith (shapeTreeLevels schema) df

theorem Shape.sz_pos (s : Shape) : 1 ≤ s.sz := by
  cases s <;> simp [Shape.sz]

theorem szList_append (a b : List Shape) :
    Shape.szList (a ++ b) = Shape.szList a + Shape.szList b := by
  induction a with
  | nil => simp [Shape.szList]
  | cons s rest ih => simp [Shape.szList, ih]; omega

theorem szList_children_lt (s : Shape) : Shape.szList s.children < s.sz := by
  cases s <;> simp [Shape.children, Shape.sz, Shape.szList]

theorem szList_flatMap_add_length_le (q : List Shape) :
    Shape.szList (q.flatMap Shape.children) + q.length ≤ Shape.szList q := by
  induction q with
  | nil => simp [Shape.szList]
  | cons s rest ih =>
      have h1 := szList_children_lt s
      have h2 : (s :: rest).flatMap Shape.children
          = s.children ++ rest.flatMap Shape.children := by
        simp [List.flatMap_cons]
      rw [h2, szList_append]
      simp [Shape.szList, List.length_cons]
      omega

theorem szList_flatMap_lt (s : Shape) (rest : List Shape) :
    Shape.szList ((s :: rest).flatMap Shape.children) < Shape.szList (s :: rest) := by
  have h := szList_flatMap_add_length_le (s :: rest)
  have hl : (s :: rest).length = rest.length + 1 := by simp
  omega

/-- Any fuel of at least the queue's total node count produces the same
rounds: the cutoff is never reached. -/
theorem levelsFromGo_congr : ∀ (f f' : Nat) (q : List Shape),
    Shape.szList q ≤ f → Shape.szList q ≤ f' → levelsFromGo f q = levelsFromGo f' q := by
  intro f
  induction f with
  | zero =>
      intro f' q hf _
      cases q with
      | nil => cases f' <;> rfl
      | cons s rest =>
          have := Shape.sz_pos s
          simp [Shape.szList] at hf
          omega
  | succ f ih =>
      intro f' q hf hf'
      cases q with
      | nil => cases f' <;> rfl
      | cons s rest =>
          cases f' with
          | zero =>
              have := Shape.sz_pos s
              simp [Shape.szList] at hf'
              omega
          | succ f' =>
              show (s :: rest) :: levelsFromGo f ((s :: rest).flatMap Shape.children)
                  = (s :: rest) :: levelsFromGo f' ((s :: rest).flatMap Shape.children)
              have hlt := szList_flatMap_lt s rest
              rw [ih f' ((s :: rest).flatMap Shape.children) (by omega) (by omega)]

theorem levelsFrom_nil : levelsFrom [] = [] := rfl

/-- The source's while-loop round: a nonempty queue contributes itself as
a level and recurses on the concatenation of the children. -/
theorem levelsFrom_cons (s : Shape) (rest : List Shape) :
    levelsFrom (s :: rest)
      = (s :: rest) :: levelsFrom ((s :: rest).flatMap Shape.children) := by
  have hpos : 1 ≤ Shape.szList (s :: rest) := by
    have := Shape.sz_pos s
    simp [Shape.szList]
    omega
  obtain ⟨m, hm⟩ : ∃ m, Shape.szList (s :: rest) = m + 1 :=
    ⟨Shape.szList (s :: rest) - 1, by omega⟩
  rw [levelsFrom, hm]
  show (s :: rest) :: levelsFromGo m ((s :: rest).flatMap Shape.children)
      = (s :: rest) :: levelsFrom ((s :: rest).flatMap Shape.children)
  rw [levelsFrom]
  have hlt := szList_flatMap_lt s rest
  rw [levelsFromGo_congr m (Shape.szList ((s :: rest).flatMap Shape.children))
    ((s :: rest).flatMap Shape.children) (by omega) (le_refl _)]

theorem heightList_append (a b : List Shape) :
    Shape.heightList (a ++ b) = max (Shape.heightList a) (Shape.heightList b) := by
  induction a with
  | nil => simp [Shape.heightList]
  | cons s rest ih => simp [Shape.heightList, ih]; omega

theorem height_eq_children (s : Shape) :
    s.height = 1 + Shape.heightList s.children := by
  cases s <;> simp [Shape.height, Shape.children, Shape.heightList]

theorem heightList_flatMap (q : List Shape) (hq : q ≠ []) :
    Shape.heightList q = 1 + Shape.heightList (q.flatMap Shape.children) := by
  induction q with
  | nil => exact absurd rfl hq
  | cons s rest ih =>
      cases rest with
      | nil =>
          have h3 := height_eq_children s
          simp [Shape.heightList, List.flatMap_cons]
          omega
      | cons t ts =>
          have h2 := ih (by simp)
          have h3 := height_eq_children s
          have e1 : (s :: t :: ts).flatMap Shape.children
              = s.children ++ (t :: ts).flatMap Shape.children := by
            simp [List.flatMap_cons]
          rw [e1, heightList_append]
          rw [show Shape.heightList (s :: t :: ts)
              = max s.height (Shape.heightList (t :: ts)) from rfl]
          omega

theorem levelsFrom_length_aux (n : Nat) :
    ∀ q : List Shape, Shape.szList q ≤ n →
      (levelsFrom q).length = Shape.heightList q := by
  induction n with
  | zero =>
      intro q hq
      cases q with
      | nil => simp [levelsFrom_nil, Shape.heightList]
      | cons s rest =>
          have := Shape.sz_pos s
          simp [Shape.szList] at hq
          omega
  | succ n ih =>
      intro q hq
      cases q with
      | nil => simp [levelsFrom_nil, Shape.heightList]
      | cons s rest =>
          rw [levelsFrom_cons]
          have hlt := szList_flatMap_lt s rest
          have hrec := ih ((s :: rest).flatMap Shape.children) (by omega)
          have hml := heightList_flatMap (s :: rest) (by simp)
          rw [List.length_cons, hrec]
          omega

/-- The number of levels produced by the reverse level-order construction
equals the height of the shape tree. -/
theorem shapeTreeLevels_length (s : Shape) :
    (shapeTreeLevels s).length = s.height := by
  have h := levelsFrom_length_aux (Shape.szList [s]) [s] (le_refl _)
  simp [shapeTreeLevels, h, Shape.heightList]

theorem sendStep_of_matches (labels : LabelMap) (e : Edge) (n : Shape) (a : Option Nat)
    (h : leafMatches labels e n = true) : sendStep labels e a n = some n.getLabel := by
  cases n with
  | tripleConstraint l p o =>
      simp [leafMatches] at h
      simp [sendStep, Shape.getLabel, h]
  | shapeReference l p r =>
      cases hl : labels e.object with
      | none => simp [leafMatches, hl] at h
      | some ls =>
          simp [leafMatches, hl] at h
          simp [sendStep, Shape.getLabel, hl, h]
  | shapeComposite l cs => simp [leafMatches] at h
  | shapeLiteral l p d =>
      simp [leafMatches] at h
      simp [sendStep, Shape.getLabel, h]
  | cardinality s mn mx => simp [leafMatches] at h

theorem sendStep_of_not_matches (labels : LabelMap) (e : Edge) (n : Shape) (a : Option Nat)
    (h : leafMatches labels e n = false) : sendStep labels e a n = a := by
  cases n with
  | tripleConstraint l p o =>
      simp [leafMatches] at h
      simp [sendStep]
      intro h1 h2
      exact absurd (h h1) (by simp [h2])
  | shapeReference l p r =>
      cases hl : labels e.object with
      | none => simp [sendStep, hl]
      | some ls =>
          simp [leafMatches, hl] at h
          simp [sendStep, hl]
          intro h1 h2
          exact absurd (h h1) (by simp [h2])
  | shapeComposite l cs => simp [sendStep]
  | shapeLiteral l p d =>
      simp [leafMatches] at h
      simp [sendStep]
      intro h1 h2 h3
      exact absurd (h h1 h2) (by simp [h3])
  | cardinality s mn mx => simp [sendStep]

theorem sendFoldFrom_last_match (labels : LabelMap) (e : Edge) (nodes : List Shape) :
    ∀ a : Option Nat,
      nodes.foldl (sendStep labels e) a
        = (((nodes.filter (leafMatches labels e)).getLast?).map Shape.getLabel).orElse
            (fun _ => a) := by
  induction nodes with
  | nil => intro a; simp
  | cons n rest ih =>
      intro a
      rw [List.foldl_cons, ih]
      cases hm : leafMatches labels e n with
      | false =>
          rw [sendStep_of_not_matches labels e n a hm]
          simp [List.filter_cons, hm]
      | true =>
          rw [sendStep_of_matches labels e n a hm]
          have hf : (n :: rest).filter (leafMatches labels e)
              = n :: rest.filter (leafMatches labels e) := by
            simp [List.filter_cons, hm]
          rw [hf]
          cases hrest : rest.filter (leafMatches labels e) with
          | nil => simp [Option.orElse]
          | cons x xs =>
              rw [List.getLast?_cons_cons]
              have hsome : ((x :: xs).getLast?).isSome = true := by
                rw [List.getLast?_isSome]
                simp
              cases hlast : (x :: xs).getLast? with
              | none => rw [hlast] at hsome; simp at hsome
              | some m => simp [Option.orElse]

/-- The send fold resolves to the label of the LAST node of the level whose
when-condition matches the edge row (NULL when none matches): later nodes
wrap earlier ones in the when/otherwise chain, so they take precedence. -/
theorem sendFold_eq_last_match (nodes : List Shape) (labels : LabelMap) (e : Edge) :
    sendFold nodes labels e
      = ((nodes.filter (leafMatches labels e)).getLast?).map Shape.getLabel := by
  rw [sendFold, sendFoldFrom_last_match]
  cases ((nodes.filter (leafMatches labels e)).getLast?).map Shape.getLabel with
  | none => simp [Option.orElse]
  | some m => simp [Option.orElse]

/-- A NULL message column passes through the vertex-update fold unchanged:
no n-ary node can fire a label on it. -/
theorem vProgFold_none (nodes : List Shape) : vProgFold nodes none = none := by
  rw [vProgFold]
  have h : ∀ (l : List Shape) (a : Option (List Nat)), a = none →
      l.foldl (vProgStep none) a = none := by
    intro l
    induction l with
    | nil => intro a ha; simpa
    | cons n rest ih =>
        intro a ha
        rw [List.foldl_cons]
        apply ih
        subst ha
        cases n with
        | shapeComposite l cs =>
            cases cs with
            | nil => simp [vProgStep, concatLabel]
            | cons c cst => simp [vProgStep, compCond]
        | cardinality s mn mx => simp [vProgStep, cardCond, cardCount]
        | tripleConstraint l p o => simp [vProgStep]
        | shapeReference l p r => simp [vProgStep]
        | shapeLiteral l p d => simp [vProgStep]
  exact h nodes none rfl

theorem vProgStep_nonempty (msgs : Option (List Nat)) (a : Option (List Nat)) (n : Shape)
    (ha : ∀ ls, a = some ls → ls ≠ []) :
    ∀ ls, vProgStep msgs a n = some ls → ls ≠ [] := by
  intro ls h
  cases n with
  | shapeComposite l cs =>
      rw [vProgStep] at h
      by_cases hc : compCond cs msgs = true
      · rw [if_pos hc] at h
        cases a with
        | none => simp [concatLabel] at h
        | some xs => simp [concatLabel] at h; simp [← h]
      · rw [if_neg hc] at h; exact ha ls h
  | cardinality s mn mx =>
      rw [vProgStep] at h
      by_cases hc : cardCond s mn mx msgs = true
      · rw [if_pos hc] at h
        cases a with
        | none => simp [concatLabel] at h
        | some xs => simp [concatLabel] at h; simp [← h]
      · rw [if_neg hc] at h; exact ha ls h
  | tripleConstraint l p o => exact ha ls h
  | shapeReference l p r => exact ha ls h
  | shapeLiteral l p d => exact ha ls h

/-- A non-NULL aggregated message column is a nonempty list. -/
theorem aggMsgs_nonempty (level : List Shape) (labels : LabelMap) (edges : List Edge)
    (v : Nat) : ∀ ms, aggMsgs level labels edges v = some ms → ms ≠ [] := by
  intro ms h
  rw [aggMsgs] at h
  by_cases he : (deliveries level labels edges v).isEmpty
  · rw [if_pos he] at h
    exact Option.noConfusion h
  · rw [if_neg he] at h
    have := Option.some.inj h
    rw [← this]
    intro hnil
    rw [hnil] at he
    simp at he

/-- Every non-NULL labels entry produced by a superstep is a nonempty list:
the aggregated message list is nonempty when it exists, and the
vertex-update fold only prepends to it. -/
theorem stepAt_nonempty (levels : List (List Shape)) (edges : List Edge) (i : Nat)
    (labels : LabelMap) (v : Nat) :
    ∀ ls, stepAt levels edges i labels v = some ls → ls ≠ [] := by
  rw [stepAt]
  cases hm : aggMsgs (levels.getD i []) labels edges v with
  | none =>
      rw [vProgFold_none]
      intro ls h
      exact Option.noConfusion h
  | some ms =>
      have hms : ms ≠ [] := aggMsgs_nonempty _ _ _ _ ms hm
      rw [vProgFold]
      have h : ∀ (l : List Shape) (a : Option (List Nat)), (∀ xs, a = some xs → xs ≠ []) →
          ∀ ls, l.foldl (vProgStep (some ms)) a = some ls → ls ≠ [] := by
        intro l
        induction l with
        | nil => intro a ha ls hs; exact ha ls hs
        | cons n rest ih =>
            intro a ha ls hs
            rw [List.foldl_cons] at hs
            exact ih _ (vProgStep_nonempty (some ms) a n ha) ls hs
      exact h _ (some ms) (by intro xs hxs; cases hxs; exact hms)

theorem runSteps_nonempty (levels : List (List Shape)) (edges : List Edge) :
    ∀ (k i : Nat) (labels : LabelMap),
      (∀ v ls, labels v = some ls → ls ≠ []) →
      ∀ v ls, runSteps levels edges i k labels v = some ls → ls ≠ [] := by
  intro k
  induction k with
  | zero => intro i labels h v ls hs; exact h v ls hs
  | succ k ih =>
      intro i labels h v ls hs
      rw [runSteps] at hs
      exact ih (i + 1) _ (fun w ws hws => stepAt_nonempty levels edges i labels w ws hws) v ls hs

/-- Every labels list in the final vertex frame is nonempty. -/
theorem labelsAfter_nonempty (levels : List (List Shape)) (edges : List Edge) (n : Nat)
    (v : Nat) : ∀ ls, labelsAfter levels edges n v = some ls → ls ≠ [] := by
  intro ls h
  exact runSteps_nonempty levels edges n 0 _ (by intro w ws hws; cases hws) v ls h

/-- C1 counterexample: for the shape ShapeAnd(label 1, children
[TripleConstraint(2, 0, 0)]) the reverse level-order construction produces
two levels and the shape tree has height 2, but ShapeTree::iterations
returns 1 (the shape is n-ary, so the function subtracts one), refuting
that iterations equals the number of levels and the height. -/
theorem C1_counterexample :
    shapeTreeLevels (Shape.shapeComposite 1 [Shape.tripleConstraint 2 0 0])
      = [[Shape.tripleConstraint 2 0 0],
         [Shape.shapeComposite 1 [Shape.tripleConstraint 2 0 0]]]
    ∧ (shapeTreeLevels (Shape.shapeComposite 1 [Shape.tripleConstraint 2 0 0])).length = 2
    ∧ Shape.height (Shape.shapeComposite 1 [Shape.tripleConstraint 2 0 0]) = 2
    ∧ iterations (shapeTreeLevels (Shape.shapeComposite 1 [Shape.tripleConstraint 2 0 0]))
      = 1 := by
  have h : shapeTreeLevels (Shape.shapeComposite 1 [Shape.tripleConstraint 2 0 0])
      = [[Shape.tripleConstraint 2 0 0],
         [Shape.shapeComposite 1 [Shape.tripleConstraint 2 0 0]]] := by
    simp [shapeTreeLevels, levelsFrom_cons, levelsFrom_nil, Shape.children]
  exact ⟨h, by rw [h]; decide, by decide, by rw [h]; decide⟩

/-- C1 (amended): the reverse level-order construction produces exactly
height(shape) levels, and ShapeTree::iterations returns that number of
levels MINUS ONE when the tree contains an n-ary node (ShapeComposite or
Cardinality) and the number of levels otherwise; the BSP engine is
configured with exactly iterations(tree) supersteps (validateWith runs
labelsAfter over iterations(levels)). -/
theorem C1_theorem (s : Shape) :
    (shapeTreeLevels s).length = s.height
    ∧ iterations (shapeTreeLevels s)
      = (if containsNary (shapeTreeLevels s) then s.height - 1 else s.height) := by
  refine ⟨shapeTreeLevels_length s, ?_⟩
  rw [iterations, shapeTreeLevels_length s]

/-- C2 counterexample: schema TripleConstraint(label 1, predicate 31,
object 5) on the edge table with rows (80,31,5) and (80,19,84).  The code
returns the single two-column row (80, [1]) — one row per labelled vertex,
no join — while the construction the claim describes (filter
length(labels) > 0, left-join to the edges on vertex id = subject, project
the four columns) yields two four-column rows, one per edge of the
validated subset. -/
theorem C2_counterexample :
    validate (Shape.tripleConstraint 1 31 5)
        [("src", [80, 80]), ("property_id", [31, 19]), ("dst", [5, 84]), ("dtype", [0, 0])]
      = .ok [(80, [1])]
    ∧ materialiseSpecModel
        (verticesOf (edgesOf
          [("src", [80, 80]), ("property_id", [31, 19]), ("dst", [5, 84]), ("dtype", [0, 0])]))
        (labelsAfter (shapeTreeLevels (Shape.tripleConstraint 1 31 5))
          (edgesOf
            [("src", [80, 80]), ("property_id", [31, 19]), ("dst", [5, 84]), ("dtype", [0, 0])])
          (iterations (shapeTreeLevels (Shape.tripleConstraint 1 31 5))))
        (edgesOf
          [("src", [80, 80]), ("property_id", [31, 19]), ("dst", [5, 84]), ("dtype", [0, 0])])
      = [(80, 31, 5, [1]), (80, 19, 84, [1])] := by
  have h : shapeTreeLevels (Shape.tripleConstraint 1 31 5)
      = [[Shape.tripleConstraint 1 31 5]] := by
    simp [shapeTreeLevels, levelsFrom_cons, levelsFrom_nil, Shape.children]
  constructor
  · rw [validate, h]; decide
  · rw [h]; decide

/-- C2 (amended): on every successful run the result table is obtained
from the post-BSP vertex frame by keeping exactly the rows whose labels
entry is non-NULL and projecting the two columns (id, labels) — one row
per labelled vertex, with no join back to the edge table — and every
labels list in the result is nonempty, so on reachable frames the
non-NULL filter coincides with length(labels) > 0. -/
theorem C2_theorem (schema : Shape) (df : EdgeDF) (r : List (Nat × List Nat))
    (h : validate schema df = .ok r) :
    r = materialiseCode (verticesOf (edgesOf df))
        (labelsAfter (shapeTreeLevels schema) (edgesOf df)
          (iterations (shapeTreeLevels schema)))
    ∧ ∀ p ∈ r, p.2 ≠ [] := by
  rw [validate, validateWith] at h
  cases h1 : checkField df "src" with
  | error e => rw [h1] at h; exact absurd h (by simp)
  | ok u =>
  rw [h1] at h
  cases h2 : checkField df "dst" with
  | error e => rw [h2] at h; exact absurd h (by simp)
  | ok u2 =>
  rw [h2] at h
  cases h3 : checkField df "property_id" with
  | error e => rw [h3] at h; exact absurd h (by simp)
  | ok u3 =>
  rw [h3] at h
  cases h4 : checkField df "dtype" with
  | error e => rw [h4] at h; exact absurd h (by simp)
  | ok u4 =>
  rw [h4] at h
  simp at h
  refine ⟨h.symm, ?_⟩
  intro p hp
  rw [← h] at hp
  rw [materialiseCode] at hp
  rcases List.mem_filterMap.mp hp with ⟨v, _, hv⟩
  cases hf : labelsAfter (shapeTreeLevels schema) (edgesOf df)
      (iterations (shapeTreeLevels schema)) v with
  | none => rw [hf] at hv; exact Option.noConfusion hv
  | some ls =>
      rw [hf] at hv
      have hpe : p = (v, ls) := by
        simp at hv
        exact hv.symm
      rw [hpe]
      exact labelsAfter_nonempty _ _ _ v ls hf

/-- C2 witness: the amended theorem applied to the concrete run of the C2
schema and table. -/
theorem C2_witness :
    [((80 : Nat), [(1 : Nat)])] = materialiseCode
        (verticesOf (edgesOf
          [("src", [80, 80]), ("property_id", [31, 19]), ("dst", [5, 84]), ("dtype", [0, 0])]))
        (labelsAfter (shapeTreeLevels (Shape.tripleConstraint 1 31 5))
          (edgesOf
            [("src", [80, 80]), ("property_id", [31, 19]), ("dst", [5, 84]), ("dtype", [0, 0])])
          (iterations (shapeTreeLevels (Shape.tripleConstraint 1 31 5))))
    ∧ ∀ p ∈ [((80 : Nat), [(1 : Nat)])], p.2 ≠ [] :=
  C2_theorem (Shape.tripleConstraint 1 31 5)
    [("src", [80, 80]), ("property_id", [31, 19]), ("dst", [5, 84]), ("dtype", [0, 0])]
    [(80, [1])]
    (by
      have h : shapeTreeLevels (Shape.tripleConstraint 1 31 5)
          = [[Shape.tripleConstraint 1 31 5]] := by
        simp [shapeTreeLevels, levelsFrom_cons, levelsFrom_nil, Shape.children]
      rw [validate, h]; decide)

/-- C3: for a ShapeAnd (ShapeComposite) processed in the vertex-update
phase, the composite's label is prepended to the vertex's list exactly
when every child's label occurs at least once among the received messages,
and receiving a duplicate of an already-present message does not change
the firing condition. -/
theorem C3_theorem (l : Nat) (cs : List Shape) (ms : List Nat) :
    (vProgFold [Shape.shapeComposite l cs] (some ms) = some (l :: ms)
      ↔ ∀ c ∈ cs, c.getLabel ∈ ms)
    ∧ ∀ x ∈ ms, compCond cs (some (x :: ms)) = compCond cs (some ms) := by
  constructor
  · rw [vProgFold]
    simp only [List.foldl_cons, List.foldl_nil]
    rw [show vProgStep (some ms) (some ms) (Shape.shapeComposite l cs)
        = (if compCond cs (some ms) then concatLabel l (some ms) else some ms) from rfl]
    constructor
    · intro h
      by_cases hc : compCond cs (some ms) = true
      · rw [compCond] at hc
        simp at hc
        exact hc
      · rw [if_neg hc] at h
        have := Option.some.inj h
        exact absurd this.symm (List.cons_ne_self l ms)
    · intro hall
      have hc : compCond cs (some ms) = true := by
        rw [compCond]
        simp
        exact hall
      rw [if_pos hc]
      simp [concatLabel]
  · intro x hx
    rw [show compCond cs (some (x :: ms))
        = cs.all (fun c => decide (c.getLabel ∈ x :: ms)) from rfl]
    rw [show compCond cs (some ms)
        = cs.all (fun c => decide (c.getLabel ∈ ms)) from rfl]
    induction cs with
    | nil => rfl
    | cons c rest ih =>
        have hmem : (c.getLabel ∈ x :: ms) ↔ c.getLabel ∈ ms := by
          constructor
          · intro h
            rcases List.mem_cons.mp h with h1 | h1
            · rw [h1]; exact hx
            · exact h1
          · intro h
            exact List.mem_cons_of_mem x h
        simp only [List.all_cons, ih, decide_eq_decide.mpr hmem]

/-- C3 witness: the composite fires on messages containing both child
labels, and duplicating a received message does not change the
condition. -/
theorem C3_witness :
    (vProgFold
        [Shape.shapeComposite 1 [Shape.tripleConstraint 2 0 0, Shape.tripleConstraint 3 0 0]]
        (some [2, 3]) = some [1, 2, 3])
    ∧ compCond [Shape.tripleConstraint 2 0 0, Shape.tripleConstraint 3 0 0] (some [2, 2, 3])
      = compCond [Shape.tripleConstraint 2 0 0, Shape.tripleConstraint 3 0 0] (some [2, 3]) :=
  ⟨(C3_theorem 1 [Shape.tripleConstraint 2 0 0, Shape.tripleConstraint 3 0 0] [2, 3]).1.mpr
      (by decide),
   (C3_theorem 1 [Shape.tripleConstraint 2 0 0, Shape.tripleConstraint 3 0 0] [2, 3]).2 2
      (by decide)⟩

/-- C4 (code bug): Cardinality(inner TripleConstraint(label 3, 10, 20),
min Inclusive(2), max Inclusive(2)) on received messages [3, 3]: the true
occurrence count of label 3 is 2 and passes both of the code's own bound
tests, yet the vertex-update fold appends nothing, because the count the
code computes — the FIRST element of the cumulative sum of the indicator
series — is 1, not 2. -/
theorem C4_theorem :
    vProgFold
        [Shape.cardinality (Shape.tripleConstraint 3 10 20)
          (Bound.inclusive 2) (Bound.inclusive 2)]
        (some [3, 3]) = some [3, 3]
    ∧ cardCount (some [3, 3]) 3 = some 1
    ∧ [3, 3].count 3 = 2
    ∧ boundMinOk (Bound.inclusive 2) 2 = true
    ∧ boundMaxOk (Bound.inclusive 2) 2 = true := by decide

/-- C5 counterexample: the reference schema ShapeReference(1, 19,
TripleConstraint(2, 17, 145)) on edges (80,19,84) and (84,17,145) — the
spec's scenario S3.  iterations = 2; after superstep 0 vertex 84 carries
label 2, but after superstep 1 its labels entry is NULL: the label was
dropped, refuting monotone labelling. -/
theorem C5_counterexample :
    shapeTreeLevels (Shape.shapeReference 1 19 (Shape.tripleConstraint 2 17 145))
      = [[Shape.tripleConstraint 2 17 145],
         [Shape.shapeReference 1 19 (Shape.tripleConstraint 2 17 145)]]
    ∧ iterations
        [[Shape.tripleConstraint 2 17 145],
         [Shape.shapeReference 1 19 (Shape.tripleConstraint 2 17 145)]] = 2
    ∧ labelsAfter
        [[Shape.tripleConstraint 2 17 145],
         [Shape.shapeReference 1 19 (Shape.tripleConstraint 2 17 145)]]
        [⟨80, 19, 84, 0⟩, ⟨84, 17, 145, 0⟩] 1 84 = some [2]
    ∧ labelsAfter
        [[Shape.tripleConstraint 2 17 145],
         [Shape.shapeReference 1 19 (Shape.tripleConstraint 2 17 145)]]
        [⟨80, 19, 84, 0⟩, ⟨84, 17, 145, 0⟩] 2 84 = none := by
  have h : shapeTreeLevels (Shape.shapeReference 1 19 (Shape.tripleConstraint 2 17 145))
      = [[Shape.tripleConstraint 2 17 145],
         [Shape.shapeReference 1 19 (Shape.tripleConstraint 2 17 145)]] := by
    simp [shapeTreeLevels, levelsFrom_cons, levelsFrom_nil, Shape.children]
  exact ⟨h, by decide, by decide, by decide⟩

/-- C5 (amended): the vertex-update fold of v_prog starts from the
aggregated message column, not from the vertex's current labels list: the
superstep output at a vertex is exactly vProgFold applied to the messages
it just received, and a vertex that receives no message gets a NULL labels
entry regardless of its previous labels — the labels column is replaced
each superstep, so labelling is not monotone. -/
theorem C5_theorem (levels : List (List Shape)) (edges : List Edge) (i : Nat)
    (labels : LabelMap) (v : Nat) :
    stepAt levels edges i labels v
      = vProgFold (levels.getD (i + 1) []) (aggMsgs (levels.getD i []) labels edges v)
    ∧ (aggMsgs (levels.getD i []) labels edges v = none →
        stepAt levels edges i labels v = none) := by
  refine ⟨rfl, ?_⟩
  intro h
  rw [stepAt, h, vProgFold_none]

/-- C5 witness: a vertex whose labels entry was [2] and which receives no
message ends the superstep with a NULL labels entry. -/
theorem C5_witness : stepAt [] [] 0 (fun _ => some [2]) 84 = none :=
  (C5_theorem [] [] 0 (fun _ => some [2]) 84).2 (by decide)

/-- C6 counterexample: two triple constraints with labels 1 and 2 occupy
the same level and both match the edge row (0,5,7); the message produced
for that row is 2, the label of the LAST matching constraint of the level,
not the first one's label 1. -/
theorem C6_counterexample :
    leafMatches (fun _ => none) ⟨0, 5, 7, 0⟩ (Shape.tripleConstraint 1 5 7) = true
    ∧ leafMatches (fun _ => none) ⟨0, 5, 7, 0⟩ (Shape.tripleConstraint 2 5 7) = true
    ∧ sendFold [Shape.tripleConstraint 1 5 7, Shape.tripleConstraint 2 5 7]
        (fun _ => none) ⟨0, 5, 7, 0⟩ = some 2 := by decide

/-- C6 (amended): threading prev chains the level's leaf-style shapes into
one column expression such that on every edge row the message is the label
of the LAST matching constraint in the level's order (NULL when none
matches): each later validate wraps the accumulated expression in its
otherwise branch, so later constraints take precedence. -/
theorem C6_theorem (nodes : List Shape) (labels : LabelMap) (e : Edge) :
    sendFold nodes labels e
      = ((nodes.filter (leafMatches labels e)).getLast?).map Shape.getLabel :=
  sendFold_eq_last_match nodes labels e

theorem checkField_ok_iff (df : EdgeDF) (name : String) :
    checkField df name = .ok () ↔ ∃ c, getCol df name = some c ∧ c ≠ [] := by
  cases hg : getCol df name with
  | none => simp [checkField, hg]
  | some c =>
      by_cases hl : c.length = 0
      · have hc : c = [] := List.length_eq_zero.mp hl
        simp [checkField, hg, hl, hc]
      · have hc : c ≠ [] := fun h => hl (by rw [h]; rfl)
        simp [checkField, hg, hl, hc]

/-- C7 counterexample: an edge table carrying only the three required
columns src ("subject"), dst ("object") and property_id ("predicate"),
each nonempty, is NOT accepted: validation fails with
SchemaFieldNotFound("dtype"), refuting that the dtype column is
optional. -/
theorem C7_counterexample :
    validate (Shape.tripleConstraint 1 0 0)
        [("src", [0]), ("dst", [0]), ("property_id", [0])]
      = .error (.schemaFieldNotFound "dtype")
    ∧ ¬∃ r, validate (Shape.tripleConstraint 1 0 0)
        [("src", [0]), ("dst", [0]), ("property_id", [0])] = .ok r := by
  have h : validate (Shape.tripleConstraint 1 0 0)
      [("src", [0]), ("dst", [0]), ("property_id", [0])]
      = .error (.schemaFieldNotFound "dtype") := by decide
  refine ⟨h, ?_⟩
  rintro ⟨r, hr⟩
  rw [h] at hr
  exact Except.noConfusion hr

/-- C7 (amended): PSchema::validate checks, before running any superstep,
that the edge table has the FOUR columns src, dst, property_id and dtype
— dtype included, it is not optional — each present and nonempty;
validation succeeds exactly when all four checks pass, and a table whose
first three checks pass but which lacks the dtype column fails with
SchemaFieldNotFound("dtype"). -/
theorem C7_theorem (schema : Shape) (df : EdgeDF) :
    ((∃ r, validate schema df = .ok r) ↔
      ∀ name ∈ (["src", "dst", "property_id", "dtype"] : List String),
        ∃ c, getCol df name = some c ∧ c ≠ [])
    ∧ (checkField df "src" = .ok () → checkField df "dst" = .ok () →
       checkField df "property_id" = .ok () → getCol df "dtype" = none →
       validate schema df = .error (.schemaFieldNotFound "dtype")) := by
  constructor
  · constructor
    · rintro ⟨r, hr⟩
      rw [validate, validateWith] at hr
      cases h1 : checkField df "src" with
      | error e => rw [h1] at hr; exact absurd hr (by simp)
      | ok u =>
      cases u
      rw [h1] at hr
      cases h2 : checkField df "dst" with
      | error e => rw [h2] at hr; exact absurd hr (by simp)
      | ok u =>
      cases u
      rw [h2] at hr
      cases h3 : checkField df "property_id" with
      | error e => rw [h3] at hr; exact absurd hr (by simp)
      | ok u =>
      cases u
      rw [h3] at hr
      cases h4 : checkField df "dtype" with
      | error e => rw [h4] at hr; exact absurd hr (by simp)
      | ok u =>
      cases u
      intro name hname
      simp only [List.mem_cons, List.not_mem_nil, or_false] at hname
      rcases hname with h | h | h | h <;> subst h
      · exact (checkField_ok_iff df "src").mp h1
      · exact (checkField_ok_iff df "dst").mp h2
      · exact (checkField_ok_iff df "property_id").mp h3
      · exact (checkField_ok_iff df "dtype").mp h4
    · intro hall
      have h1 : checkField df "src" = .ok () :=
        (checkField_ok_iff df "src").mpr (hall "src" (by simp))
      have h2 : checkField df "dst" = .ok () :=
        (checkField_ok_iff df "dst").mpr (hall "dst" (by simp))
      have h3 : checkField df "property_id" = .ok () :=
        (checkField_ok_iff df "property_id").mpr (hall "property_id" (by simp))
      have h4 : checkField df "dtype" = .ok () :=
        (checkField_ok_iff df "dtype").mpr (hall "dtype" (by simp))
      rw [validate, validateWith, h1, h2, h3, h4]
      exact ⟨_, rfl⟩
  · intro hs hd hp hdt
    rw [validate, validateWith, hs, hd, hp]
    simp [checkField, hdt]

/-- C7 witness: the amended theorem applied to the concrete three-column
table. -/
theorem C7_witness :
    validate (Shape.tripleConstraint 1 0 0)
        [("src", [5]), ("dst", [6]), ("property_id", [7])]
      = .error (.schemaFieldNotFound "dtype") :=
  (C7_theorem (Shape.tripleConstraint 1 0 0)
      [("src", [5]), ("dst", [6]), ("property_id", [7])]).2
    (by decide) (by decide) (by decide) (by decide)

/-- C8: on an edge table whose four required columns are present but hold
zero rows, PSchema::validate returns the NoData ("EmptyColumn") error
naming the empty column src, before any superstep runs; in particular it
never returns a success with zero rows, and — validation being a pure
function of its input here — the failure produces no vertex-labelling
side effects. -/
theorem C8_theorem (schema : Shape) (df : EdgeDF)
    (h : ∀ name ∈ (["src", "dst", "property_id", "dtype"] : List String),
      getCol df name = some []) :
    validate schema df = .error (.noData "src") := by
  have hs := h "src" (by simp)
  rw [validate, validateWith]
  rw [show checkField df "src" = .error (.noData "src") from by simp [checkField, hs]]

/-- C8 witness: the theorem applied to the concrete empty four-column
table. -/
theorem C8_witness :
    validate (Shape.tripleConstraint 1 0 0)
        [("src", []), ("dst", []), ("property_id", []), ("dtype", [])]
      = .error (.noData "src") :=
  C8_theorem (Shape.tripleConstraint 1 0 0)
    [("src", []), ("dst", []), ("property_id", []), ("dtype", [])] (by decide)

theorem self_mem_subshapes (s : Shape) : s ∈ s.subshapes := by
  cases s <;> simp [Shape.subshapes]

theorem mem_subshapesList (t : Shape) :
    ∀ ss : List Shape, t ∈ Shape.subshapesList ss ↔ ∃ s ∈ ss, t ∈ s.subshapes := by
  intro ss
  induction ss with
  | nil => simp [Shape.subshapesList]
  | cons s rest ih => simp [Shape.subshapesList, List.mem_append, ih]

theorem sz_le_szList_of_mem (s' : Shape) :
    ∀ ss : List Shape, s' ∈ ss → s'.sz ≤ Shape.szList ss := by
  intro ss
  induction ss with
  | nil => intro h; simp at h
  | cons s rest ih =>
      intro h
      rcases List.mem_cons.mp h with h1 | h1
      · subst h1; simp [Shape.szList]
      · have := ih h1
        simp [Shape.szList]
        omega

theorem C10_aux (n : Nat) : ∀ s : Shape, s.sz ≤ n →
    ∀ l, l ∈ s.subshapes.map Shape.getLabel →
      ∃ t, t ∈ s.subshapes ∧ t.isCardinality = false ∧ t.getLabel = l := by
  induction n with
  | zero =>
      intro s hs
      exact absurd hs (by have := Shape.sz_pos s; omega)
  | succ n ih =>
      intro s hs l hl
      cases s with
      | tripleConstraint a p o =>
          simp [Shape.subshapes, Shape.getLabel] at hl
          exact ⟨Shape.tripleConstraint a p o, by simp [Shape.subshapes], rfl,
            by simp [Shape.getLabel, hl]⟩
      | shapeLiteral a p d =>
          simp [Shape.subshapes, Shape.getLabel] at hl
          exact ⟨Shape.shapeLiteral a p d, by simp [Shape.subshapes], rfl,
            by simp [Shape.getLabel, hl]⟩
      | shapeReference a p r =>
          rw [show (Shape.shapeReference a p r).subshapes
              = Shape.shapeReference a p r :: r.subshapes from rfl, List.map_cons] at hl
          have hsz : r.sz ≤ n := by
            rw [show (Shape.shapeReference a p r).sz = 1 + r.sz from rfl] at hs
            omega
          rcases List.mem_cons.mp hl with h1 | h1
          · exact ⟨Shape.shapeReference a p r, self_mem_subshapes _, rfl, h1.symm⟩
          · rcases ih r hsz l h1 with ⟨t, ht, hc, hgl⟩
            refine ⟨t, ?_, hc, hgl⟩
            rw [show (Shape.shapeReference a p r).subshapes
                = Shape.shapeReference a p r :: r.subshapes from rfl]
            exact List.mem_cons_of_mem _ ht
      | cardinality inner mn mx =>
          rw [show (Shape.cardinality inner mn mx).subshapes
              = Shape.cardinality inner mn mx :: inner.subshapes from rfl,
            List.map_cons] at hl
          have hsz : inner.sz ≤ n := by
            rw [show (Shape.cardinality inner mn mx).sz = 1 + inner.sz from rfl] at hs
            omega
          have hcons : (Shape.cardinality inner mn mx).subshapes
              = Shape.cardinality inner mn mx :: inner.subshapes := rfl
          rcases List.mem_cons.mp hl with h1 | h1
          · have hm : inner.getLabel ∈ inner.subshapes.map Shape.getLabel :=
              List.mem_map_of_mem _ (self_mem_subshapes inner)
            rcases ih inner hsz inner.getLabel hm with ⟨t, ht, hc, hgl⟩
            refine ⟨t, ?_, hc, ?_⟩
            · rw [hcons]; exact List.mem_cons_of_mem _ ht
            · rw [h1]; exact hgl
          · rcases ih inner hsz l h1 with ⟨t, ht, hc, hgl⟩
            refine ⟨t, ?_, hc, hgl⟩
            rw [hcons]; exact List.mem_cons_of_mem _ ht
      | shapeComposite a ss =>
          rw [show (Shape.shapeComposite a ss).subshapes
              = Shape.shapeComposite a ss :: Shape.subshapesList ss from rfl,
            List.map_cons] at hl
          have hcons : (Shape.shapeComposite a ss).subshapes
              = Shape.shapeComposite a ss :: Shape.subshapesList ss := rfl
          rcases List.mem_cons.mp hl with h1 | h1
          · exact ⟨Shape.shapeComposite a ss, self_mem_subshapes _, rfl, h1.symm⟩
          · rcases List.mem_map.mp h1 with ⟨t0, ht0, hgl0⟩
            rcases (mem_subshapesList t0 ss).mp ht0 with ⟨s', hs', ht0s⟩
            have hsz : s'.sz ≤ n := by
              have h5 := sz_le_szList_of_mem s' ss hs'
              rw [show (Shape.shapeComposite a ss).sz = 1 + Shape.szList ss from rfl] at hs
              omega
            have hmem : l ∈ s'.subshapes.map Shape.getLabel := by
              rw [← hgl0]
              exact List.mem_map_of_mem _ ht0s
            rcases ih s' hsz l hmem with ⟨t, ht, hc, hgl⟩
            refine ⟨t, ?_, hc, hgl⟩
            rw [hcons]
            exact List.mem_cons_of_mem _ ((mem_subshapesList t ss).mpr ⟨s', hs', ht⟩)

/-- C10: a Cardinality node introduces no label of its own: get_label on a
Cardinality returns its inner shape's label, when a Cardinality fires in
the vertex-update phase the label it prepends is the inner shape's label,
and the set of labels carried by a schema's constituent shapes equals the
set of labels of its non-Cardinality constituents. -/
theorem C10_theorem (s : Shape) :
    (∀ l, l ∈ s.subshapes.map Shape.getLabel ↔
        l ∈ (s.subshapes.filter (fun t => !t.isCardinality)).map Shape.getLabel)
    ∧ (∀ (inner : Shape) (mn mx : Bound),
        (Shape.cardinality inner mn mx).getLabel = inner.getLabel)
    ∧ (∀ (inner : Shape) (mn mx : Bound) (msgs prev : Option (List Nat)),
        cardCond inner mn mx msgs = true →
        vProgStep msgs prev (Shape.cardinality inner mn mx)
          = concatLabel inner.getLabel prev) := by
  refine ⟨?_, fun inner mn mx => rfl, ?_⟩
  · intro l
    constructor
    · intro hl
      rcases C10_aux s.sz s (le_refl _) l hl with ⟨t, ht, hc, hgl⟩
      refine List.mem_map.mpr ⟨t, List.mem_filter.mpr ⟨ht, ?_⟩, hgl⟩
      rw [hc]
      rfl
    · intro hl
      rcases List.mem_map.mp hl with ⟨t, ht, hgl⟩
      exact List.mem_map.mpr ⟨t, (List.mem_filter.mp ht).1, hgl⟩
  · intro inner mn mx msgs prev h
    simp [vProgStep, h]

/-- C10 witness: a concrete firing Cardinality prepends exactly the inner
triple constraint's label. -/
theorem C10_witness :
    vProgStep (some [3]) (some [3])
        (Shape.cardinality (Shape.tripleConstraint 3 0 0)
          (Bound.inclusive 1) (Bound.inclusive 1))
      = concatLabel (Shape.tripleConstraint 3 0 0).getLabel (some [3]) :=
  (C10_theorem (Shape.tripleConstraint 3 0 0)).2.2 (Shape.tripleConstraint 3 0 0)
    (Bound.inclusive 1) (Bound.inclusive 1) (some [3]) (some [3]) (by decide)

end PschemaRs
